import Mathlib

/-!
Shallow embedding of the PMD401 emulator (`emu.py`) and the lazy TCP
transport (`lazy_sock.py`), with theorems checking the natural-language
specification against the code.

Python exceptions are modelled by `Except PyErr`; machine integers are
`Int`/`Nat` (Python integers are unbounded, so no wrap-around is needed);
the per-channel mutable state is passed explicitly as a `List Channel`.
-/

/-- Python exceptions that the embedded code can raise. -/
inductive PyErr where
  | valueError
  | indexError
  | typeError
  deriving DecidableEq, Repr

/-- ASCII decimal digit test (Python's regex `\d` on the ASCII inputs used here). -/
def isDigitChar (c : Char) : Bool := 48 ≤ c.toNat && c.toNat ≤ 57

/-- Whitespace stripped by Python's `int()` (space, tab, newline, carriage return). -/
def isWsChar (c : Char) : Bool :=
  c.toNat = 32 || c.toNat = 9 || c.toNat = 10 || c.toNat = 13

/-- Decimal digit to its ASCII character (only applied to `d < 10`). -/
def digitChar (d : Nat) : Char :=
  match d with
  | 0 => '0' | 1 => '1' | 2 => '2' | 3 => '3' | 4 => '4'
  | 5 => '5' | 6 => '6' | 7 => '7' | 8 => '8' | _ => '9'

/-- Fuelled core of Python's `str()` on a non-negative integer: emits the
decimal digits of `n` in front of `acc`.  The fuel is structural so that the
definition reduces by `rfl`; fuel `n + 1` always suffices. -/
def pyStrNatCore : Nat → Nat → List Char → List Char
  | 0, _, acc => acc
  | fuel + 1, n, acc =>
    if n < 10 then digitChar n :: acc
    else pyStrNatCore fuel (n / 10) (digitChar (n % 10) :: acc)

/-- Decimal digits of a natural number, as produced by Python's `str()`. -/
def pyStrNatChars (n : Nat) : List Char := pyStrNatCore (n + 1) n []

/-- Python `str()` of a natural number. -/
def pyStrNat (n : Nat) : String := String.mk (pyStrNatChars n)

/-- Python `str()` of an integer (used by the f-strings building replies). -/
def pyStr (v : Int) : String :=
  if v < 0 then String.mk ('-' :: pyStrNatChars (-v).toNat)
  else String.mk (pyStrNatChars v.toNat)

/-- Numeric value of a big-endian digit string (the value `int()` computes). -/
def valNat (l : List Char) : Nat := l.foldl (fun a c => 10 * a + (c.toNat - 48)) 0

/-- Strip leading and trailing whitespace, as Python's `int()` does. -/
def stripWs (l : List Char) : List Char :=
  ((l.dropWhile isWsChar).reverse.dropWhile isWsChar).reverse

/-- Python's `int(str)` on a character list: optional sign followed by a
non-empty digit string after stripping whitespace, otherwise `ValueError`. -/
def pyIntChars (l : List Char) : Except PyErr Int :=
  match stripWs l with
  | [] => .error .valueError
  | c :: ds =>
    if c = '-' then
      if ds ≠ [] ∧ ds.all isDigitChar then .ok (-(valNat ds : Int))
      else .error .valueError
    else if c = '+' then
      if ds ≠ [] ∧ ds.all isDigitChar then .ok ((valNat ds : Int))
      else .error .valueError
    else
      if (c :: ds).all isDigitChar then .ok ((valNat (c :: ds) : Int))
      else .error .valueError

/-- Python's `int()` on a string. -/
def pyInt (s : String) : Except PyErr Int := pyIntChars s.data

/-- Python's `str.split(sep)` with no maxsplit: splits on every occurrence
of `sep`; the empty string yields `[[]]`. -/
def pySplitChars (l : List Char) (sep : Char) : List (List Char) :=
  match l with
  | [] => [[]]
  | c :: rest =>
    let r := pySplitChars rest sep
    if c = sep then [] :: r
    else
      match r with
      | h :: t => (c :: h) :: t
      | [] => [[c]]

/-- Parsed request, mirroring the `Command` dataclass of `emu.py`:
`channel` is the first regex group, `name` the (optional) operation part
before the first comma, `argument` the part after the comma, and
`suppress_response` is true when the line was terminated by `;`. -/
structure Command where
  channel : String
  name : Option String
  argument : Option String
  suppress_response : Bool
  deriving DecidableEq, Repr

/-- Delimiter class `[;\n\r]` of `COMMAND_RE`. -/
def isDelim (c : Char) : Bool := c == ';' || c == '\n' || c == '\r'

/-- Python's `$` anchor: matches at the end of the string or just before a
single final newline. -/
def dollarAt (l : List Char) : Bool := l.isEmpty || l == ['\n']

/-- Backtracking match of the regex suffix `.*([;\n\r])$` of `COMMAND_RE`
against the characters after the leading `[ETY]` of group 2: greedily
extends `.*` (which cannot cross a newline), falling back to using the
current character as the group-3 delimiter.  Returns the characters taken
by `.*` and the delimiter. -/
def matchTail : List Char → Option (List Char × Char)
  | [] => none
  | c :: rest =>
    match (if c = '\n' then none else matchTail rest) with
    | some (p, d) => some (c :: p, d)
    | none => if isDelim c && dollarAt rest then some ([], c) else none

/-- Match `([;\n\r])$` directly (the case where the optional group 2 of
`COMMAND_RE` is absent). -/
def matchNoOp (rest : List Char) : Option (Option (List Char) × Char) :=
  match rest with
  | [] => none
  | d :: r => if isDelim d && dollarAt r then some (none, d) else none

/-- Match `([ETY].*)?([;\n\r])$`: the optional group is tried first (it must
start with `E`, `T` or `Y`), falling back to the absent-group case.  Returns
the characters of group 2 (if present) and the group-3 delimiter. -/
def matchOp (rest : List Char) : Option (Option (List Char) × Char) :=
  match rest with
  | [] => none
  | c :: u =>
    if c = 'E' ∨ c = 'T' ∨ c = 'Y' then
      match matchTail u with
      | some (p, d) => some (some (c :: p), d)
      | none => matchNoOp rest
    else matchNoOp rest

/-- Backtracking alternatives for the greedy `\d*` of group 1: splits of the
input at each digit-prefix length, longest first. -/
def digitPrefixSplits (l : List Char) : List (List Char × List Char) :=
  ((List.range ((l.takeWhile isDigitChar).length + 1)).reverse).map
    (fun k => (l.take k, l.drop k))

/-- Groups captured by a successful `COMMAND_RE` match. -/
structure ReMatch where
  channel : String
  op : Option String
  delim : Char
  deriving DecidableEq, Repr

/-- First alternative (in backtracking order) on which the rest of the
pattern succeeds. -/
def firstSome (f : List Char × List Char → Option ReMatch) :
    List (List Char × List Char) → Option ReMatch
  | [] => none
  | a :: as =>
    match f a with
    | some r => some r
    | none => firstSome f as

/-- Continuation applied to one group-1 alternative: the remaining pattern
`([ETY].*)?([;\n\r])$` must match the remainder, and on success the three
captured groups are packaged up. -/
def matchGroupsCont (p : List Char × List Char) : Option ReMatch :=
  match matchOp p.2 with
  | some (op, d) => some ⟨String.mk p.1, Option.map String.mk op, d⟩
  | none => none

/-- Python's `COMMAND_RE.match` for `^X(\?|\d*)([ETY].*)?([;\n\r])$`: a
leading `X`, then group 1 (the alternation tries `?` before the greedy
`\d*`, whose backtracking alternatives are the digit prefixes longest
first), then `([ETY].*)?([;\n\r])$`. -/
def matchGroups (s : List Char) : Option ReMatch :=
  match s with
  | [] => none
  | c :: rest =>
    if c = 'X' then
      firstSome matchGroupsCont
        ((if rest.head? = some '?' then [(['?'], rest.tail)] else []) ++
          digitPrefixSplits rest)
    else none

/-- Embedding of `_parse_command`: run `COMMAND_RE`, returning `none` when
the regex does not match; when the operation part contains a comma, Python's
`command, argument = command.split(",")` succeeds only if the split has
exactly two parts and raises `ValueError` otherwise. -/
def parseCommand (line : String) : Except PyErr (Option Command) :=
  match matchGroups line.data with
  | none => .ok none
  | some m =>
    match m.op with
    | none => .ok (some ⟨m.channel, none, none, m.delim == ';'⟩)
    | some op =>
      if ',' ∈ op.data then
        match pySplitChars op.data ',' with
        | [nm, arg] =>
          .ok (some ⟨m.channel, some (String.mk nm), some (String.mk arg),
                     m.delim == ';'⟩)
        | _ => .error .valueError
      else .ok (some ⟨m.channel, some op, none, m.delim == ';'⟩)

/-- One motor channel: the two integer fields of the `Channel` class.  The
lock of the Python class is modelled separately by the access traces below. -/
structure Channel where
  encoder_position : Int
  target_position : Int
  deriving DecidableEq, Repr

/-- The `CHANNELS` constant of `emu.py`. -/
def CHANNELS : Nat := 3

/-- The controller built by `get_controller`: `CHANNELS` channels with
encoder and target 0. -/
def initChannels : List Channel := List.replicate CHANNELS ⟨0, 0⟩

/-- Python list indexing `chans[i]`: negative indices count from the end;
out-of-range raises `IndexError`. -/
def pyGetItem (chans : List Channel) (i : Int) : Except PyErr Channel :=
  let j : Int := if i < 0 then (chans.length : Int) + i else i
  if 0 ≤ j ∧ j < chans.length then .ok (chans.getD j.toNat ⟨0, 0⟩)
  else .error .indexError

/-- Writing back the mutated channel object at index `i` (the Python code
mutates the object obtained by `chans[i]` in place). -/
def pySetItem (chans : List Channel) (i : Int) (c : Channel) : List Channel :=
  let j : Int := if i < 0 then (chans.length : Int) + i else i
  chans.set j.toNat c

/-- Embedding of `_list_channels_cmd`: one line `X<n>\n` per channel. -/
def listChannelsCmd : String :=
  String.join ((List.range CHANNELS).map (fun n => "X" ++ pyStrNat n ++ "\n"))

/-- Embedding of `_target_cmd`.  A one-character name is the read form; a
longer name parses `name[1:]` as the new target (before the channel index is
parsed, matching the statement order of the source), swaps it in, and
replies with the previous target. -/
def targetCmd (name channel : String) (chans : List Channel) :
    Except PyErr (List Channel × String) :=
  if name.data.length = 1 then
    match pyInt channel with
    | .error e => .error e
    | .ok i =>
      match pyGetItem chans i with
      | .error e => .error e
      | .ok ch =>
        .ok (chans, "X" ++ channel ++ "T:" ++ pyStr ch.target_position ++ "\r")
  else
    match pyIntChars (name.data.drop 1) with
    | .error e => .error e
    | .ok newTarget =>
      match pyInt channel with
      | .error e => .error e
      | .ok i =>
        match pyGetItem chans i with
        | .error e => .error e
        | .ok ch =>
          .ok (pySetItem chans i { ch with target_position := newTarget },
               "X" ++ channel ++ "T:" ++ pyStr ch.target_position ++ "\r")

/-- Embedding of `_encode_position_cmd`: read the encoder position. -/
def encodePositionCmd (channel : String) (chans : List Channel) :
    Except PyErr (List Channel × String) :=
  match pyInt channel with
  | .error e => .error e
  | .ok i =>
    match pyGetItem chans i with
    | .error e => .error e
    | .ok ch =>
      .ok (chans, "X" ++ channel ++ "E:" ++ pyStr ch.encoder_position ++ "\r")

/-- Embedding of `_config_encoder_cmd`: built from the command alone, the
controller is never consulted. -/
def configEncoderCmd (cmd : Command) : String :=
  match cmd.argument with
  | none => "X" ++ cmd.channel ++ "Y13" ++ ":1, Quad_32\r"
  | some a => "X" ++ cmd.channel ++ "Y13" ++ "," ++ a ++ "\n"

/-- Dispatch chain of `_handle_command` on a parsed command.  Evaluating
`command.name[0]` raises `TypeError` when `name` is `None` and `IndexError`
when it is empty, exactly as in Python. -/
def dispatch (cmd : Command) (chans : List Channel) :
    Except PyErr (List Channel × String) :=
  if cmd.channel = "?" then .ok (chans, "X?:PMD401 V18-emu\r")
  else if cmd.channel = "127" ∧ cmd.name = none then .ok (chans, listChannelsCmd)
  else
    match cmd.name with
    | none => .error .typeError
    | some nm =>
      match nm.data with
      | [] => .error .indexError
      | c :: _ =>
        if c = 'T' then targetCmd nm cmd.channel chans
        else if nm = "E" then encodePositionCmd cmd.channel chans
        else if nm = "Y13" then .ok (chans, configEncoderCmd cmd)
        else .ok (chans, "wat?\n")

/-- Embedding of `_handle_command`: parse, dispatch, then send the reply
unless the command parsed successfully and asked for suppression.  The
returned `Option String` is the bytes written to the connection (`none`
when suppressed); a raised exception propagates (and, since `serve_client`
catches only `BrokenPipeError`, ends the session). -/
def handleCommand (line : String) (chans : List Channel) :
    Except PyErr (List Channel × Option String) :=
  match parseCommand line with
  | .error e => .error e
  | .ok none => .ok (chans, some "parse error\n")
  | .ok (some cmd) =>
    match dispatch cmd chans with
    | .error e => .error e
    | .ok (chans2, reply) =>
      .ok (chans2, if cmd.suppress_response then none else some reply)

/-- Embedding of `move_motor` inside `motor_ticker`: no change at target,
otherwise move the encoder by exactly `±1` toward the target. -/
def moveMotor (c : Channel) : Channel :=
  if c.target_position = c.encoder_position then c
  else
    { c with
      encoder_position :=
        c.encoder_position +
          (if c.target_position > c.encoder_position then 1 else -1) }

/-- One tick of `motor_ticker`: `move_motor` on every channel. -/
def tick (chans : List Channel) : List Channel := chans.map moveMotor

/-- Which of the two channel fields an access touches. -/
inductive ChannelField where
  | encoder
  | target
  deriving DecidableEq, Repr

/-- One attribute access of a `Channel` object in `emu.py`: which field,
whether it is a write, and whether the channel's `_lock` is held at that
program point (i.e. whether the access is inside a `with channel:` block). -/
structure Access where
  whatField : ChannelField
  isWrite : Bool
  lockHeld : Bool
  deriving DecidableEq, Repr

/-- Accesses of the read form of `_target_cmd` (`channel.target_position`
read inside `with controller.channels[...] as channel`). -/
def targetReadAccesses : List Access := [⟨.target, false, true⟩]

/-- Accesses of the write form of `_target_cmd` (read of the old target and
write of the new one, both inside the `with` block). -/
def targetWriteAccesses : List Access :=
  [⟨.target, false, true⟩, ⟨.target, true, true⟩]

/-- Accesses of `_encode_position_cmd` (encoder read inside the `with`
block). -/
def encoderReadAccesses : List Access := [⟨.encoder, false, true⟩]

/-- Accesses of `move_motor` in `motor_ticker` on a channel that is not at
its target: the comparison reads target and encoder, the delta computation
reads them again, and the `+=` reads and writes the encoder.  None of these
statements is inside a `with channel:` block — `motor_ticker` never touches
the channel's `_lock`. -/
def moveMotorAccesses : List Access :=
  [⟨.target, false, false⟩, ⟨.encoder, false, false⟩,
   ⟨.target, false, false⟩, ⟨.encoder, false, false⟩,
   ⟨.encoder, false, false⟩, ⟨.encoder, true, false⟩]

/-- The claim-level predicate: every access of the trace holds the lock. -/
def allLocked (l : List Access) : Bool := l.all (fun a => a.lockHeld)

/-- State of one `LazyTCPSocket` (`lazy_sock.py`): the idle deadline
`_disconnect_at` (absolute time on an integer timeline, `none` = Python
`None`), whether `_sock` is an open connection, and whether `_delayed_cb`
holds an armed timer.  All transitions below happen under `_sock_lock`, so
they are modelled as atomic steps. -/
structure LazyState where
  disconnect_at : Option Int
  sock : Bool
  delayed_cb : Bool
  deriving DecidableEq, Repr

/-- `LazyTCPSocket.__init__`: no deadline, no connection, no timer. -/
def initLazy : LazyState := ⟨none, false, false⟩

/-- `_connect`: open the connection and arm the delayed callback. -/
def lazyConnect (st : LazyState) : LazyState :=
  { st with sock := true, delayed_cb := true }

/-- `_disconnect`: close the connection and drop the callback reference. -/
def lazyDisconnect (st : LazyState) : LazyState :=
  { st with sock := false, delayed_cb := false }

/-- `_get_tcp_socket` (the exclusive section entered by both `sendall` and
`recv`): push the idle deadline to `now + timeout`, then connect if no
connection is open. -/
def getTcpSocket (timeout now : Int) (st : LazyState) : LazyState :=
  let st1 := { st with disconnect_at := some (now + timeout) }
  if st1.sock then st1 else lazyConnect st1

/-- Wrapper-state effect of `sendall`: it only runs `_get_tcp_socket` (the
socket write itself does not change the wrapper's fields). -/
def sendallStep (timeout now : Int) (st : LazyState) : LazyState :=
  getTcpSocket timeout now st

/-- Wrapper-state effect of `recv`: same exclusive section as `sendall`. -/
def recvStep (timeout now : Int) (st : LazyState) : LazyState :=
  getTcpSocket timeout now st

/-- `_maybe_disconnect`, the timer callback: if the deadline is still ahead
re-arm for exactly the remaining time (returned as `some delay`), otherwise
disconnect and stop (`none`).  Comparing against a `None` deadline would
raise `TypeError` in Python. -/
def maybeDisconnect (now : Int) (st : LazyState) :
    Except PyErr (LazyState × Option Int) :=
  match st.disconnect_at with
  | none => .error .typeError
  | some d =>
    if now < d then .ok (st, some (d - now))
    else .ok (lazyDisconnect st, none)

/-- `teardown`: nothing to do when no timer is armed, otherwise cancel the
timer and disconnect. -/
def teardownStep (st : LazyState) : LazyState :=
  if st.delayed_cb then lazyDisconnect st else st

/-- The implicit invariant of `LazyTCPSocket`: the connection is open
exactly when the idle timer is armed. -/
def lazyInvariant (st : LazyState) : Prop := st.sock = st.delayed_cb

/-! Helper lemmas about the decimal rendering and `int()` parsing. -/

theorem pyStrNatCore_fuel (f : Nat) : ∀ (g n : Nat) (acc : List Char),
    n < f → n < g → pyStrNatCore f n acc = pyStrNatCore g n acc := by
  induction f with
  | zero => intro g n acc hf; omega
  | succ f ih =>
    intro g n acc hf hg
    cases g with
    | zero => omega
    | succ g =>
      by_cases h : n < 10
      · simp [pyStrNatCore, h]
      · simp only [pyStrNatCore, if_neg h]
        exact ih g (n / 10) _ (by omega) (by omega)

theorem pyStrNatChars_base (n : Nat) (h : n < 10) :
    pyStrNatChars n = [digitChar n] := by
  simp [pyStrNatChars, pyStrNatCore, h]

theorem pyStrNatCore_append (n : Nat) : ∀ acc : List Char,
    pyStrNatCore (n + 1) n acc = pyStrNatCore (n + 1) n [] ++ acc := by
  induction n using Nat.strong_induction_on with
  | _ n ih =>
    intro acc
    by_cases h : n < 10
    · simp [pyStrNatCore, h]
    · have hd : n / 10 < n := by omega
      simp only [pyStrNatCore, if_neg h]
      rw [pyStrNatCore_fuel n (n / 10 + 1) (n / 10) _ (by omega) (by omega),
          pyStrNatCore_fuel n (n / 10 + 1) (n / 10) [digitChar (n % 10)]
            (by omega) (by omega),
          ih (n / 10) hd (digitChar (n % 10) :: acc),
          ih (n / 10) hd [digitChar (n % 10)], List.append_assoc]
      simp

theorem pyStrNatChars_step (n : Nat) (h : 10 ≤ n) :
    pyStrNatChars n = pyStrNatChars (n / 10) ++ [digitChar (n % 10)] := by
  unfold pyStrNatChars
  conv_lhs => rw [pyStrNatCore]
  rw [if_neg (by omega),
      pyStrNatCore_fuel n (n / 10 + 1) (n / 10) _ (by omega) (by omega)]
  exact pyStrNatCore_append (n / 10) [digitChar (n % 10)]

theorem digitChar_toNat (d : Nat) (h : d < 10) : (digitChar d).toNat = 48 + d := by
  interval_cases d <;> rfl

theorem isDigitChar_digitChar (d : Nat) : isDigitChar (digitChar d) = true := by
  unfold digitChar
  rcases d with _ | _ | _ | _ | _ | _ | _ | _ | _ | d <;> rfl

theorem pyStrNatChars_digits (n : Nat) :
    ∀ c ∈ pyStrNatChars n, isDigitChar c = true := by
  induction n using Nat.strong_induction_on with
  | _ n ih =>
    by_cases h : n < 10
    · rw [pyStrNatChars_base n h]
      intro c hc
      rw [List.mem_singleton.mp hc]
      exact isDigitChar_digitChar n
    · rw [pyStrNatChars_step n (by omega)]
      intro c hc
      rcases List.mem_append.mp hc with h1 | h2
      · exact ih (n / 10) (by omega) c h1
      · rw [List.mem_singleton.mp h2]
        exact isDigitChar_digitChar _

theorem pyStrNatChars_ne_nil (n : Nat) : pyStrNatChars n ≠ [] := by
  by_cases h : n < 10
  · rw [pyStrNatChars_base n h]; simp
  · rw [pyStrNatChars_step n (by omega)]; simp

theorem valNat_pyStrNatChars (n : Nat) : valNat (pyStrNatChars n) = n := by
  induction n using Nat.strong_induction_on with
  | _ n ih =>
    by_cases h : n < 10
    · rw [pyStrNatChars_base n h]
      simp [valNat, digitChar_toNat n h]
    · rw [pyStrNatChars_step n (by omega)]
      have hA := ih (n / 10) (by omega)
      unfold valNat at hA ⊢
      rw [List.foldl_append, hA]
      simp [digitChar_toNat (n % 10) (by omega)]
      omega

theorem isWs_of_digit (c : Char) (h : isDigitChar c = true) : isWsChar c = false := by
  simp only [isDigitChar, Bool.and_eq_true, decide_eq_true_eq] at h
  simp only [isWsChar, Bool.or_eq_false_iff, decide_eq_false_iff_not]
  omega

theorem dropWhile_no_sat (p : Char → Bool) (l : List Char)
    (h : ∀ c ∈ l, p c = false) : l.dropWhile p = l := by
  cases l with
  | nil => rfl
  | cons c t => simp [List.dropWhile_cons, h c (by simp)]

theorem stripWs_no_ws (l : List Char) (h : ∀ c ∈ l, isWsChar c = false) :
    stripWs l = l := by
  unfold stripWs
  rw [dropWhile_no_sat isWsChar l h,
      dropWhile_no_sat isWsChar l.reverse
        (fun c hc => h c (List.mem_reverse.mp hc)),
      List.reverse_reverse]

theorem pyStr_data_ofNat (n : Nat) : (pyStr (n : Int)).data = pyStrNatChars n := by
  unfold pyStr
  rw [if_neg (by omega)]
  simp

theorem pyStr_data_neg (v : Int) (h : v < 0) :
    (pyStr v).data = '-' :: pyStrNatChars (-v).toNat := by
  unfold pyStr
  rw [if_pos h]

theorem pyStr_chars (v : Int) :
    ∀ c ∈ (pyStr v).data, c.toNat = 45 ∨ isDigitChar c = true := by
  by_cases h : v < 0
  · rw [pyStr_data_neg v h]
    intro c hc
    rcases List.mem_cons.mp hc with rfl | hc
    · left; rfl
    · right; exact pyStrNatChars_digits _ c hc
  · intro c hc
    rw [show v = ((v.toNat : Nat) : Int) by omega, pyStr_data_ofNat] at hc
    right
    exact pyStrNatChars_digits _ c hc

theorem pyStr_data_ne_nil (v : Int) : (pyStr v).data ≠ [] := by
  by_cases h : v < 0
  · rw [pyStr_data_neg v h]; simp
  · rw [show v = ((v.toNat : Nat) : Int) by omega, pyStr_data_ofNat]
    exact pyStrNatChars_ne_nil _

theorem pyIntChars_pyStr (v : Int) : pyIntChars (pyStr v).data = .ok v := by
  by_cases h : v < 0
  · rw [pyStr_data_neg v h]
    unfold pyIntChars
    rw [stripWs_no_ws ('-' :: pyStrNatChars (-v).toNat)
        (by
          intro c hc
          rcases List.mem_cons.mp hc with rfl | hc
          · rfl
          · exact isWs_of_digit c (pyStrNatChars_digits _ c hc))]
    dsimp only
    rw [if_pos rfl,
        if_pos ⟨pyStrNatChars_ne_nil _,
          List.all_eq_true.mpr (fun c hc => pyStrNatChars_digits _ c hc)⟩,
        valNat_pyStrNatChars]
    congr 1
    omega
  · have hv : v = ((v.toNat : Nat) : Int) := by omega
    rw [hv, pyStr_data_ofNat]
    unfold pyIntChars
    rw [stripWs_no_ws (pyStrNatChars v.toNat)
        (fun c hc => isWs_of_digit c (pyStrNatChars_digits _ c hc))]
    obtain ⟨c, t, hct⟩ := List.exists_cons_of_ne_nil (pyStrNatChars_ne_nil v.toNat)
    rw [hct]
    have hcd : isDigitChar c = true := by
      apply pyStrNatChars_digits v.toNat
      rw [hct]; simp
    have hc48 : 48 ≤ c.toNat ∧ c.toNat ≤ 57 := by
      simpa [isDigitChar, Bool.and_eq_true, decide_eq_true_eq] using hcd
    dsimp only
    rw [if_neg (by intro hcq; rw [hcq] at hc48; simp at hc48),
        if_neg (by intro hcq; rw [hcq] at hc48; simp at hc48),
        if_pos (by
          rw [← hct]
          exact List.all_eq_true.mpr (fun x hx => pyStrNatChars_digits _ x hx)),
        ← hct, valNat_pyStrNatChars]

theorem pyIntChars_pyStrNatChars (n : Nat) :
    pyIntChars (pyStrNatChars n) = .ok (n : Int) := by
  have h := pyIntChars_pyStr (n : Int)
  rwa [pyStr_data_ofNat] at h

/-! Helper lemmas about the `COMMAND_RE` matcher. -/

theorem matchTail_run (body : List Char) (d : Char)
    (hb : ∀ c ∈ body, c ≠ '\n') (hd : isDelim d = true) :
    matchTail (body ++ [d]) = some (body, d) := by
  induction body with
  | nil =>
    simp only [List.nil_append]
    unfold matchTail
    by_cases hdn : d = '\n'
    · subst hdn
      simp [hd, dollarAt]
    · simp [hdn, matchTail, hd, dollarAt]
  | cons c t ih =>
    have hc : c ≠ '\n' := hb c (by simp)
    simp only [List.cons_append]
    unfold matchTail
    rw [if_neg hc, ih (fun x hx => hb x (by simp [hx]))]

theorem takeWhile_append_fail (p : Char → Bool) (ds rest : List Char)
    (hds : ∀ c ∈ ds, p c = true)
    (hrest : ∀ c, rest.head? = some c → p c = false) :
    (ds ++ rest).takeWhile p = ds := by
  induction ds with
  | nil =>
    simp only [List.nil_append]
    cases rest with
    | nil => rfl
    | cons c t => simp [List.takeWhile_cons, hrest c rfl]
  | cons c t ih =>
    simp [List.takeWhile_cons, hds c (by simp),
      ih (fun x hx => hds x (by simp [hx]))]

theorem firstSome_cons_hit (f : List Char × List Char → Option ReMatch)
    (a : List Char × List Char) (as : List (List Char × List Char))
    (r : ReMatch) (h : f a = some r) : firstSome f (a :: as) = some r := by
  unfold firstSome
  rw [h]

theorem matchGroups_digit_channel (ds rest : List Char)
    (op : Option (List Char)) (d : Char)
    (hne : ds ≠ []) (hds : ∀ c ∈ ds, isDigitChar c = true)
    (hrest : ∀ c, rest.head? = some c → isDigitChar c = false)
    (hop : matchOp rest = some (op, d)) :
    matchGroups ('X' :: ds ++ rest) =
      some ⟨String.mk ds, Option.map String.mk op, d⟩ := by
  obtain ⟨c0, ds', hds'⟩ := List.exists_cons_of_ne_nil hne
  have hc0 : isDigitChar c0 = true := hds c0 (by rw [hds']; simp)
  have hhead : (ds ++ rest).head? = some c0 := by rw [hds']; rfl
  have hnq : ¬((ds ++ rest).head? = some '?') := by
    rw [hhead]
    intro hq
    rw [Option.some_inj.mp hq] at hc0
    simp [isDigitChar] at hc0
  have htw : (ds ++ rest).takeWhile isDigitChar = ds :=
    takeWhile_append_fail isDigitChar ds rest hds hrest
  have hstep : matchGroups ('X' :: ds ++ rest) =
      firstSome matchGroupsCont
        ((if (ds ++ rest).head? = some '?' then [(['?'], (ds ++ rest).tail)]
          else []) ++ digitPrefixSplits (ds ++ rest)) := rfl
  rw [hstep, if_neg hnq]
  simp only [List.nil_append]
  unfold digitPrefixSplits
  rw [htw, List.range_succ, List.reverse_append]
  simp only [List.reverse_cons, List.reverse_nil, List.nil_append,
    List.singleton_append, List.map_cons]
  rw [List.take_left, List.drop_left]
  apply firstSome_cons_hit
  unfold matchGroupsCont
  rw [hop]

theorem parseCommand_of_match (line : String) (ch : String) (opc : List Char)
    (d : Char)
    (hm : matchGroups line.data = some ⟨ch, some (String.mk opc), d⟩)
    (hnc : ',' ∉ opc) :
    parseCommand line = .ok (some ⟨ch, some (String.mk opc), none, d == ';'⟩) := by
  unfold parseCommand
  rw [hm]
  dsimp only
  rw [if_neg (by simpa using hnc)]

theorem parseCommand_T_line (line : String) (n : Nat) (body : List Char)
    (hline : line.data = 'X' :: pyStrNatChars n ++ 'T' :: body ++ ['\n'])
    (hbody : ∀ c ∈ body, c.toNat = 45 ∨ isDigitChar c = true) :
    parseCommand line =
      .ok (some ⟨pyStrNat n, some (String.mk ('T' :: body)), none, false⟩) := by
  have hbn : ∀ c ∈ body, c ≠ '\n' := by
    intro c hc he
    rcases hbody c hc with h45 | hdig
    · rw [he] at h45; simp at h45
    · rw [he] at hdig; simp [isDigitChar] at hdig
  have hop : matchOp ('T' :: body ++ ['\n']) =
      some (some ('T' :: body), '\n') := by
    have h1 : matchOp ('T' :: (body ++ ['\n'])) =
        (if 'T' = 'E' ∨ 'T' = 'T' ∨ 'T' = 'Y' then
          match matchTail (body ++ ['\n']) with
          | some (p, d) => some (some ('T' :: p), d)
          | none => matchNoOp ('T' :: (body ++ ['\n']))
        else matchNoOp ('T' :: (body ++ ['\n']))) := rfl
    rw [List.cons_append, h1, if_pos (Or.inr (Or.inl rfl)),
        matchTail_run body '\n' hbn rfl]
  have hm : matchGroups line.data =
      some ⟨pyStrNat n, some (String.mk ('T' :: body)), '\n'⟩ := by
    rw [hline]
    have hq : ∀ c, ('T' :: body ++ ['\n']).head? = some c →
        isDigitChar c = false := by
      intro c hc
      obtain rfl : 'T' = c := by simpa using hc
      decide
    have h2 := matchGroups_digit_channel (pyStrNatChars n)
      ('T' :: body ++ ['\n']) (some ('T' :: body)) '\n'
      (pyStrNatChars_ne_nil n) (pyStrNatChars_digits n) hq hop
    simpa using h2
  have hp := parseCommand_of_match line (pyStrNat n) ('T' :: body) '\n' hm
    (by
      intro hmem
      rcases List.mem_cons.mp hmem with h | h
      · simp at h
      · rcases hbody ',' h with h45 | hdig
        · simp at h45
        · simp [isDigitChar] at hdig)
  rwa [show (('\n' == ';') : Bool) = false from rfl] at hp

/-! Helper lemmas about indexing and the dispatch chain. -/

theorem pyStrNat_ne_query (n : Nat) : pyStrNat n ≠ "?" := by
  intro h
  have hd : pyStrNatChars n = ['?'] := congrArg String.data h
  have h2 : isDigitChar '?' = true := by
    apply pyStrNatChars_digits n
    rw [hd]; simp
  simp [isDigitChar] at h2

theorem pyGetItem_ok (chans : List Channel) (n : Nat) (h : n < chans.length) :
    pyGetItem chans (n : Int) = .ok (chans.getD n ⟨0, 0⟩) := by
  show (if 0 ≤ (if (n : Int) < 0 then (chans.length : Int) + n else n) ∧
          (if (n : Int) < 0 then (chans.length : Int) + n else n) < chans.length
        then Except.ok (chans.getD
          (if (n : Int) < 0 then (chans.length : Int) + n else n).toNat ⟨0, 0⟩)
        else Except.error PyErr.indexError) = Except.ok (chans.getD n ⟨0, 0⟩)
  rw [if_neg (show ¬((n : Int) < 0) by omega)]
  rw [if_pos (show (0 : Int) ≤ (n : Int) ∧ (n : Int) < (chans.length : Int) by
    constructor <;> omega), Int.toNat_natCast]

theorem pyGetItem_err (chans : List Channel) (n : Nat) (h : chans.length ≤ n) :
    pyGetItem chans (n : Int) = .error .indexError := by
  show (if 0 ≤ (if (n : Int) < 0 then (chans.length : Int) + n else n) ∧
          (if (n : Int) < 0 then (chans.length : Int) + n else n) < chans.length
        then Except.ok (chans.getD
          (if (n : Int) < 0 then (chans.length : Int) + n else n).toNat ⟨0, 0⟩)
        else Except.error PyErr.indexError) = Except.error PyErr.indexError
  rw [if_neg (show ¬((n : Int) < 0) by omega)]
  rw [if_neg (show ¬((0 : Int) ≤ (n : Int) ∧ (n : Int) < (chans.length : Int)) by
    intro hc
    omega)]

theorem pySetItem_natCast (chans : List Channel) (n : Nat) (c : Channel) :
    pySetItem chans (n : Int) c = chans.set n c := by
  show chans.set (if (n : Int) < 0 then (chans.length : Int) + n else n).toNat c =
    chans.set n c
  rw [if_neg (by omega), Int.toNat_natCast]

theorem getD_set_self (l : List Channel) (n : Nat) (c : Channel)
    (h : n < l.length) : (l.set n c).getD n ⟨0, 0⟩ = c := by
  induction l generalizing n with
  | nil => simp at h
  | cons a t ih =>
    cases n with
    | zero => rfl
    | succ m =>
      simp only [List.set_cons_succ, List.getD_cons_succ]
      exact ih m (by simpa using h)

theorem dispatch_named (ch nm : String) (arg : Option String) (sup : Bool)
    (chans : List Channel) (c : Char) (rest : List Char)
    (hch : ch ≠ "?") (hnm : nm.data = c :: rest) :
    dispatch ⟨ch, some nm, arg, sup⟩ chans =
      (if c = 'T' then targetCmd nm ch chans
       else if nm = "E" then encodePositionCmd ch chans
       else if nm = "Y13" then .ok (chans, configEncoderCmd ⟨ch, some nm, arg, sup⟩)
       else .ok (chans, "wat?\n")) := by
  unfold dispatch
  dsimp only
  rw [if_neg hch, if_neg (by simp), hnm]

theorem targetCmd_read (nm ch : String) (chans : List Channel) (i : Nat)
    (hnm : nm.data = ['T'])
    (hch : pyIntChars ch.data = .ok (i : Int)) (hi : i < chans.length) :
    targetCmd nm ch chans =
      .ok (chans,
        "X" ++ ch ++ "T:" ++ pyStr ((chans.getD i ⟨0, 0⟩).target_position) ++ "\r") := by
  unfold targetCmd
  rw [if_pos (by rw [hnm]; rfl)]
  show (match pyInt ch with
        | .error e => Except.error e
        | .ok j =>
          match pyGetItem chans j with
          | .error e => Except.error e
          | .ok chn =>
            .ok (chans, "X" ++ ch ++ "T:" ++ pyStr chn.target_position ++ "\r")) = _
  rw [show pyInt ch = .ok (i : Int) from hch]
  dsimp only
  rw [pyGetItem_ok chans i hi]

theorem targetCmd_write (nm ch : String) (chans : List Channel) (V : Int)
    (i : Nat) (body : List Char)
    (hnm : nm.data = 'T' :: body) (hbody : body ≠ [])
    (hbi : pyIntChars body = .ok V)
    (hch : pyIntChars ch.data = .ok (i : Int)) (hi : i < chans.length) :
    targetCmd nm ch chans =
      .ok (chans.set i { chans.getD i ⟨0, 0⟩ with target_position := V },
        "X" ++ ch ++ "T:" ++ pyStr ((chans.getD i ⟨0, 0⟩).target_position) ++ "\r") := by
  unfold targetCmd
  rw [if_neg (by rw [hnm]; simpa using hbody)]
  rw [show nm.data.drop 1 = body by rw [hnm]; simp]
  rw [show pyIntChars body = Except.ok V from hbi]
  show (match pyInt ch with
        | .error e => Except.error e
        | .ok j =>
          match pyGetItem chans j with
          | .error e => Except.error e
          | .ok chn =>
            .ok (pySetItem chans j { chn with target_position := V },
                 "X" ++ ch ++ "T:" ++ pyStr chn.target_position ++ "\r")) = _
  rw [show pyInt ch = .ok (i : Int) from hch]
  dsimp only
  rw [pyGetItem_ok chans i hi]
  dsimp only
  rw [pySetItem_natCast]



/-! The claims. -/

/-- C1: for every channel `n` in range and every value `V`, dispatching the
write command `X<n>T<V>` swaps `V` into channel `n`'s `target_position` and
replies with the previous target value `X<n>T:<old>\r`; a subsequent read
command `X<n>T` replies with `V`. -/
theorem target_write_swap_then_read (n : Nat) (V : Int) (chans : List Channel)
    (hn : n < CHANNELS) (hlen : chans.length = CHANNELS) :
    handleCommand ("X" ++ pyStrNat n ++ "T" ++ pyStr V ++ "\n") chans =
      .ok (chans.set n { chans.getD n ⟨0, 0⟩ with target_position := V },
           some ("X" ++ pyStrNat n ++ "T:" ++
                 pyStr ((chans.getD n ⟨0, 0⟩).target_position) ++ "\r")) ∧
    handleCommand ("X" ++ pyStrNat n ++ "T\n")
        (chans.set n { chans.getD n ⟨0, 0⟩ with target_position := V }) =
      .ok (chans.set n { chans.getD n ⟨0, 0⟩ with target_position := V },
           some ("X" ++ pyStrNat n ++ "T:" ++ pyStr V ++ "\r")) := by
  have hi : n < chans.length := by omega
  constructor
  · have hp := parseCommand_T_line ("X" ++ pyStrNat n ++ "T" ++ pyStr V ++ "\n")
      n (pyStr V).data (by simp [pyStrNat]) (pyStr_chars V)
    unfold handleCommand
    rw [hp]
    dsimp only
    rw [dispatch_named (pyStrNat n) (String.mk ('T' :: (pyStr V).data)) none
          false chans 'T' (pyStr V).data (pyStrNat_ne_query n) rfl,
        if_pos rfl,
        targetCmd_write (String.mk ('T' :: (pyStr V).data)) (pyStrNat n) chans
          V n (pyStr V).data rfl (pyStr_data_ne_nil V) (pyIntChars_pyStr V)
          (pyIntChars_pyStrNatChars n) hi]
    rfl
  · have hp := parseCommand_T_line ("X" ++ pyStrNat n ++ "T\n") n []
      (by simp [pyStrNat]) (by intro c hc; simp at hc)
    unfold handleCommand
    rw [hp]
    dsimp only
    rw [dispatch_named (pyStrNat n) (String.mk ['T']) none false _ 'T' []
          (pyStrNat_ne_query n) rfl,
        if_pos rfl,
        targetCmd_read (String.mk ['T']) (pyStrNat n) _ n rfl
          (pyIntChars_pyStrNatChars n) (by simpa using hi),
        getD_set_self chans n _ hi]
    rfl

/-- C1 witness: write 5 to channel 0 of the initial controller, then read
it back. -/
theorem target_write_swap_then_read_witness :
    handleCommand ("X" ++ pyStrNat 0 ++ "T" ++ pyStr 5 ++ "\n") initChannels =
      .ok (initChannels.set 0
             { initChannels.getD 0 ⟨0, 0⟩ with target_position := 5 },
           some ("X" ++ pyStrNat 0 ++ "T:" ++
                 pyStr ((initChannels.getD 0 ⟨0, 0⟩).target_position) ++ "\r")) ∧
    handleCommand ("X" ++ pyStrNat 0 ++ "T\n")
        (initChannels.set 0
          { initChannels.getD 0 ⟨0, 0⟩ with target_position := 5 }) =
      .ok (initChannels.set 0
             { initChannels.getD 0 ⟨0, 0⟩ with target_position := 5 },
           some ("X" ++ pyStrNat 0 ++ "T:" ++ pyStr 5 ++ "\r")) :=
  target_write_swap_then_read 0 5 initChannels (by decide) (by decide)

/-- Closed form of the motor iteration: as long as the tick count does not
exceed the initial distance, the encoder has moved exactly that many unit
steps toward the target. -/
theorem moveMotor_iter_closed (E T : Int) : ∀ i : Nat, i ≤ (T - E).natAbs →
    moveMotor^[i] ⟨E, T⟩ =
      ⟨E + (if E ≤ T then (i : Int) else -(i : Int)), T⟩ := by
  intro i
  induction i with
  | zero => intro _; simp
  | succ k ih =>
    intro h
    rw [Function.iterate_succ_apply', ih (by omega)]
    unfold moveMotor
    by_cases hET : E ≤ T
    · simp only [if_pos hET]
      rw [if_neg (by omega), if_pos (by omega)]
      simp only [Channel.mk.injEq, and_true]
      push_cast
      ring
    · simp only [if_neg hET]
      rw [if_neg (by omega), if_neg (by omega)]
      simp only [Channel.mk.injEq, and_true]
      push_cast
      ring

/-- C2: one tick leaves the encoder unchanged when it equals the target and
otherwise moves it by exactly 1 toward the target (for every channel of the
controller); with fixed target `T` and initial encoder `E`, after exactly
`|T - E|` ticks the encoder equals `T`, not earlier, and it never leaves the
interval between `E` and `T` (no overshoot). -/
theorem motor_tick_step_and_convergence :
    (∀ c : Channel, c.encoder_position = c.target_position → moveMotor c = c) ∧
    (∀ c : Channel, c.encoder_position ≠ c.target_position →
      moveMotor c = { c with encoder_position := c.encoder_position +
        (if c.target_position > c.encoder_position then 1 else -1) }) ∧
    (∀ (chans : List Channel) (i : Nat),
      (tick chans)[i]? = (chans[i]?).map moveMotor) ∧
    (∀ E T : Int,
      (moveMotor^[(T - E).natAbs] ⟨E, T⟩).encoder_position = T ∧
      (∀ i : Nat, i < (T - E).natAbs →
        (moveMotor^[i] ⟨E, T⟩).encoder_position ≠ T) ∧
      (∀ i : Nat, i ≤ (T - E).natAbs →
        min E T ≤ (moveMotor^[i] ⟨E, T⟩).encoder_position ∧
        (moveMotor^[i] ⟨E, T⟩).encoder_position ≤ max E T)) := by
  refine ⟨?_, ?_, ?_, ?_⟩
  · intro c h
    unfold moveMotor
    rw [if_pos h.symm]
  · intro c h
    unfold moveMotor
    rw [if_neg (fun he => h he.symm)]
  · intro chans i
    simp [tick]
  · intro E T
    refine ⟨?_, ?_, ?_⟩
    · rw [moveMotor_iter_closed E T _ le_rfl]
      dsimp only
      by_cases hET : E ≤ T
      · rw [if_pos hET]; omega
      · rw [if_neg hET]; omega
    · intro i hi
      rw [moveMotor_iter_closed E T i (by omega)]
      dsimp only
      by_cases hET : E ≤ T
      · rw [if_pos hET]; omega
      · rw [if_neg hET]; omega
    · intro i hi
      rw [moveMotor_iter_closed E T i hi]
      dsimp only
      by_cases hET : E ≤ T
      · rw [if_pos hET]; constructor <;> omega
      · rw [if_neg hET]; constructor <;> omega

/-- C2 witness: a channel at its target stays, a channel below its target
steps up by 1, and from encoder 0 / target 3 the encoder reaches 3 in
exactly 3 ticks. -/
theorem motor_tick_step_and_convergence_witness :
    moveMotor ⟨2, 2⟩ = ⟨2, 2⟩ ∧
    moveMotor ⟨0, 3⟩ = { Channel.mk 0 3 with
      encoder_position := 0 + (if (3 : Int) > 0 then 1 else -1) } ∧
    (moveMotor^[((3 : Int) - 0).natAbs] ⟨0, 3⟩).encoder_position = 3 :=
  ⟨motor_tick_step_and_convergence.1 ⟨2, 2⟩ rfl,
   motor_tick_step_and_convergence.2.1 ⟨0, 3⟩ (by decide),
   (motor_tick_step_and_convergence.2.2.2 0 3).1⟩

/-- C3 counterexample: the successfully parsed command `X0\n` (digit
channel, no operation) is claimed to get the `wat?\n` reply, but evaluating
`command.name[0]` on a `None` name raises `TypeError` instead, so the
handler produces no reply at all. -/
theorem noop_command_typeerror :
    handleCommand "X0\n" initChannels = .error .typeError ∧
    handleCommand "X0\n" initChannels ≠ .ok (initChannels, some "wat?\n") := by
  refine ⟨rfl, ?_⟩
  intro h
  rw [show handleCommand "X0\n" initChannels = .error .typeError from rfl] at h
  exact Except.noConfusion h

/-- C3 (amended): a parsed command whose operation name is present, whose
channel is not `?`, and whose name is not a T-command, `E` or `Y13` gets the
unknown-command reply `wat?\n`; a parsed command with no operation at all
(other than the channel-127 case) instead raises `TypeError`. -/
theorem unknown_op_wat_reply (cmd : Command) (chans : List Channel)
    (nm : String)
    (h1 : cmd.channel ≠ "?") (h2 : cmd.name = some nm) (h3 : nm.data ≠ [])
    (h4 : nm.data.head? ≠ some 'T') (h5 : nm ≠ "E") (h6 : nm ≠ "Y13") :
    dispatch cmd chans = .ok (chans, "wat?\n") := by
  obtain ⟨c, rest, hc⟩ := List.exists_cons_of_ne_nil h3
  obtain ⟨ch, onm, arg, sup⟩ := cmd
  dsimp only at h1 h2
  subst h2
  rw [dispatch_named ch nm arg sup chans c rest h1 hc]
  rw [if_neg (by intro he; apply h4; rw [hc, he]; rfl), if_neg h5, if_neg h6]

/-- C3 witness: the unrecognized operation `Y12` on channel 0 draws the
`wat?\n` reply. -/
theorem unknown_op_wat_reply_witness :
    dispatch ⟨"0", some "Y12", none, false⟩ initChannels =
      .ok (initChannels, "wat?\n") :=
  unknown_op_wat_reply ⟨"0", some "Y12", none, false⟩ initChannels "Y12"
    (by decide) rfl (by decide) (by decide) (by decide) (by decide)

/-- C4: the parser is not total.  On `X0Y13,6,7\n` the operation part
contains two commas, `command.split(",")` yields three pieces, and the
two-target unpacking raises `ValueError` — `_parse_command` raises instead
of returning its `Optional[Command]` failure value, contradicting both the
spec and the function's own signature (the dispatcher treats `None` as the
only failure mode). -/
theorem parse_two_commas_value_error :
    parseCommand "X0Y13,6,7\n" = .error .valueError := by rfl

/-- C5: a line that fails to parse always draws `parse error\n` (whatever
its delimiter); a successfully parsed command's `suppress_response` flag is
exactly "the matched delimiter was `;`"; and when dispatch computes a reply,
that reply is sent precisely when the flag is off. -/
theorem reply_suppression_rules (line : String) (chans : List Channel) :
    (parseCommand line = .ok none →
      handleCommand line chans = .ok (chans, some "parse error\n")) ∧
    (∀ m cmd, matchGroups line.data = some m →
      parseCommand line = .ok (some cmd) →
      cmd.suppress_response = (m.delim == ';')) ∧
    (∀ cmd chans2 r, parseCommand line = .ok (some cmd) →
      cmd.suppress_response = true → dispatch cmd chans = .ok (chans2, r) →
      handleCommand line chans = .ok (chans2, none)) ∧
    (∀ cmd chans2 r, parseCommand line = .ok (some cmd) →
      cmd.suppress_response = false → dispatch cmd chans = .ok (chans2, r) →
      handleCommand line chans = .ok (chans2, some r)) := by
  refine ⟨?_, ?_, ?_, ?_⟩
  · intro h
    unfold handleCommand
    rw [h]
  · intro m cmd hm hp
    unfold parseCommand at hp
    rw [hm] at hp
    rcases m with ⟨mch, mop, mdel⟩
    rcases mop with _ | op
    · dsimp only at hp
      simp only [Except.ok.injEq, Option.some.injEq] at hp
      rw [← hp]
    · dsimp only at hp
      by_cases hcomma : ',' ∈ op.data
      · rw [if_pos hcomma] at hp
        rcases hsp : pySplitChars op.data ',' with _ | ⟨a, _ | ⟨b, _ | _⟩⟩ <;>
          rw [hsp] at hp
        · exact Except.noConfusion hp
        · exact Except.noConfusion hp
        · simp only [Except.ok.injEq, Option.some.injEq] at hp
          rw [← hp]
        · exact Except.noConfusion hp
      · rw [if_neg hcomma] at hp
        simp only [Except.ok.injEq, Option.some.injEq] at hp
        rw [← hp]
  · intro cmd chans2 r hp hs hd
    unfold handleCommand
    rw [hp]
    dsimp only
    rw [hd]
    dsimp only
    rw [hs]
    simp
  · intro cmd chans2 r hp hs hd
    unfold handleCommand
    rw [hp]
    dsimp only
    rw [hd]
    dsimp only
    rw [hs]
    simp

/-- C5 witness: `X0Y13,6;` parses with the silent delimiter and sends no
bytes; the malformed line `junk;` draws `parse error\n` even though it ends
in the silent delimiter. -/
theorem reply_suppression_rules_witness :
    handleCommand "X0Y13,6;" initChannels = .ok (initChannels, none) ∧
    handleCommand "junk;" initChannels =
      .ok (initChannels, some "parse error\n") :=
  ⟨(reply_suppression_rules "X0Y13,6;" initChannels).2.2.1
      ⟨"0", some "Y13", some "6", true⟩ initChannels "X0Y13,6\n" rfl rfl rfl,
   (reply_suppression_rules "junk;" initChannels).1 rfl⟩

/-- C6 counterexample: on the 3-channel controller, the well-formed command
`X5T\n` with an out-of-range channel raises `IndexError`: no explicit error
reply is produced, and since `serve_client` catches only `BrokenPipeError`
the exception ends the session thread instead of the loop continuing. -/
theorem out_of_range_channel_index_error :
    handleCommand "X5T\n" initChannels = .error .indexError := by rfl

/-- Reading the target of an out-of-range channel index raises IndexError. -/
theorem targetCmd_read_outofrange (nm ch : String) (chans : List Channel)
    (i : Nat) (hnm : nm.data = ['T'])
    (hch : pyIntChars ch.data = .ok (i : Int)) (hi : chans.length ≤ i) :
    targetCmd nm ch chans = .error .indexError := by
  unfold targetCmd
  rw [if_pos (by rw [hnm]; rfl)]
  show (match pyInt ch with
        | .error e => Except.error e
        | .ok j =>
          match pyGetItem chans j with
          | .error e => Except.error e
          | .ok chn =>
            .ok (chans, "X" ++ ch ++ "T:" ++ pyStr chn.target_position ++ "\r")) = _
  rw [show pyInt ch = .ok (i : Int) from hch]
  dsimp only
  rw [pyGetItem_err chans i hi]

/-- C6 (amended): an out-of-range channel index, an empty channel number, or
a non-numeric T suffix raises an uncaught exception (`IndexError` resp.
`ValueError`) out of the handler: no error reply is sent and the session
does not continue (only `BrokenPipeError` is caught). -/
theorem invalid_command_uncaught_exception (chans : List Channel) (n : Nat)
    (hlen : chans.length = CHANNELS) (hn : CHANNELS ≤ n) :
    handleCommand ("X" ++ pyStrNat n ++ "T\n") chans = .error .indexError ∧
    handleCommand "XE\n" chans = .error .valueError ∧
    handleCommand "X0Tzz\n" chans = .error .valueError := by
  refine ⟨?_, rfl, rfl⟩
  have hp := parseCommand_T_line ("X" ++ pyStrNat n ++ "T\n") n []
    (by simp [pyStrNat]) (by intro c hc; simp at hc)
  unfold handleCommand
  rw [hp]
  dsimp only
  rw [dispatch_named (pyStrNat n) (String.mk ['T']) none false chans 'T' []
        (pyStrNat_ne_query n) rfl, if_pos rfl,
      targetCmd_read_outofrange (String.mk ['T']) (pyStrNat n) chans n rfl
        (pyIntChars_pyStrNatChars n) (by omega)]

/-- C6 witness: channel 5 on the initial 3-channel controller. -/
theorem invalid_command_uncaught_exception_witness :
    handleCommand ("X" ++ pyStrNat 5 ++ "T\n") initChannels =
      .error .indexError ∧
    handleCommand "XE\n" initChannels = .error .valueError ∧
    handleCommand "X0Tzz\n" initChannels = .error .valueError :=
  invalid_command_uncaught_exception initChannels 5 (by decide) (by decide)

/-- C7 counterexample: the combined trace of every channel-state access in
`emu.py` is not all-locked, refuting the claim that every read or write of
`encoder_position`/`target_position` happens under the channel's lock: the
accesses `move_motor` makes for the motor-simulator thread hold no lock. -/
theorem channel_access_not_all_locked :
    allLocked (targetReadAccesses ++ targetWriteAccesses ++
      encoderReadAccesses ++ moveMotorAccesses) = false := by rfl

/-- C7 (amended): the command handlers access channel state only while
holding the channel's lock, but every access of the motor simulator's
`move_motor` is made without the lock, so handler/simulator mutual
exclusion on a channel is not established by the code. -/
theorem handler_locked_motor_unlocked :
    allLocked targetReadAccesses = true ∧
    allLocked targetWriteAccesses = true ∧
    allLocked encoderReadAccesses = true ∧
    moveMotorAccesses.all (fun a => !a.lockHeld) = true :=
  ⟨rfl, rfl, rfl, rfl⟩

/-- C8: `sendall`/`recv` run exactly the `_get_tcp_socket` section, which
pushes the idle deadline to `now + timeout` and, when no connection is open,
opens one and arms the timer (changing nothing else when one is open); the
timer callback re-arms for exactly the remaining time while the deadline is
ahead, and otherwise disconnects, clears the timer, and stops. -/
theorem lazy_deadline_and_timer (timeout now d : Int) (st : LazyState) :
    ((getTcpSocket timeout now st).disconnect_at = some (now + timeout)) ∧
    (st.sock = false → (getTcpSocket timeout now st).sock = true ∧
      (getTcpSocket timeout now st).delayed_cb = true) ∧
    (st.sock = true → getTcpSocket timeout now st =
      { st with disconnect_at := some (now + timeout) }) ∧
    (sendallStep timeout now st = getTcpSocket timeout now st) ∧
    (recvStep timeout now st = getTcpSocket timeout now st) ∧
    (st.disconnect_at = some d → now < d →
      maybeDisconnect now st = .ok (st, some (d - now))) ∧
    (st.disconnect_at = some d → d ≤ now →
      maybeDisconnect now st =
        .ok ({ st with sock := false, delayed_cb := false }, none)) := by
  refine ⟨?_, ?_, ?_, rfl, rfl, ?_, ?_⟩
  · unfold getTcpSocket
    by_cases h : st.sock <;> simp [h, lazyConnect]
  · intro h
    unfold getTcpSocket
    simp [h, lazyConnect]
  · intro h
    unfold getTcpSocket
    simp [h]
  · intro hd hlt
    unfold maybeDisconnect
    rw [hd]
    dsimp only
    rw [if_pos hlt]
  · intro hd hge
    unfold maybeDisconnect lazyDisconnect
    rw [hd]
    dsimp only
    rw [if_neg (by omega)]

/-- C8 witness: a first use at time 0 with timeout 60 connects and arms the
timer with deadline 60; a callback at time 5 re-arms for 55 = 60 - 5; a
callback at time 60 disconnects and stops. -/
theorem lazy_deadline_and_timer_witness :
    (getTcpSocket 60 0 initLazy).disconnect_at = some (0 + 60) ∧
    ((getTcpSocket 60 0 initLazy).sock = true ∧
     (getTcpSocket 60 0 initLazy).delayed_cb = true) ∧
    maybeDisconnect 5 (getTcpSocket 60 0 initLazy) =
      .ok (getTcpSocket 60 0 initLazy, some (60 - 5)) ∧
    maybeDisconnect 60 (getTcpSocket 60 0 initLazy) =
      .ok ({ getTcpSocket 60 0 initLazy with
             sock := false, delayed_cb := false }, none) :=
  ⟨(lazy_deadline_and_timer 60 0 60 initLazy).1,
   (lazy_deadline_and_timer 60 0 60 initLazy).2.1 rfl,
   (lazy_deadline_and_timer 60 5 60 (getTcpSocket 60 0 initLazy)).2.2.2.2.2.1
     rfl (by decide),
   (lazy_deadline_and_timer 60 60 60 (getTcpSocket 60 0 initLazy)).2.2.2.2.2.2
     rfl (by decide)⟩

/-- C9: the connection-iff-timer invariant holds at construction and is
preserved by `sendall`, `recv`, `teardown`, and the timer callback. -/
theorem lazy_sock_timer_invariant (timeout now : Int) (st st2 : LazyState)
    (r : Option Int) (h : lazyInvariant st) :
    lazyInvariant initLazy ∧
    lazyInvariant (sendallStep timeout now st) ∧
    lazyInvariant (recvStep timeout now st) ∧
    lazyInvariant (teardownStep st) ∧
    (maybeDisconnect now st = .ok (st2, r) → lazyInvariant st2) := by
  have hstep : lazyInvariant (getTcpSocket timeout now st) := by
    unfold getTcpSocket
    by_cases hs : st.sock
    · simpa [hs, lazyInvariant] using h
    · simp [hs, lazyConnect, lazyInvariant]
  refine ⟨rfl, hstep, hstep, ?_, ?_⟩
  · unfold teardownStep
    by_cases hc : st.delayed_cb
    · simp [hc, lazyDisconnect, lazyInvariant]
    · simpa [hc] using h
  · intro hm
    unfold maybeDisconnect at hm
    rcases hda : st.disconnect_at with _ | dl
    · rw [hda] at hm
      exact Except.noConfusion hm
    · rw [hda] at hm
      dsimp only at hm
      by_cases hlt : now < dl
      · rw [if_pos hlt] at hm
        simp only [Except.ok.injEq, Prod.mk.injEq] at hm
        rw [← hm.1]
        exact h
      · rw [if_neg hlt] at hm
        simp only [Except.ok.injEq, Prod.mk.injEq] at hm
        rw [← hm.1]
        rfl

/-- C9 witness: the invariant at the freshly constructed state and its
preservation across one use and one teardown. -/
theorem lazy_sock_timer_invariant_witness :
    lazyInvariant initLazy ∧
    lazyInvariant (sendallStep 60 0 initLazy) ∧
    lazyInvariant (recvStep 60 0 initLazy) ∧
    lazyInvariant (teardownStep initLazy) ∧
    (maybeDisconnect 0 initLazy = .ok (initLazy, some 1) →
      lazyInvariant initLazy) :=
  lazy_sock_timer_invariant 60 0 initLazy initLazy (some 1) rfl

/-- C10: dispatching a Y13 command — read form (no argument) or write form
(with argument) — never consults or changes any channel: it succeeds for
every channel string other than `?`, including out-of-range numbers, the
channel list is returned unchanged, and the reply is computed from the
parsed command alone. -/
theorem y13_pure_reply_frame (ch : String) (arg : Option String) (sup : Bool)
    (chans : List Channel) (h : ch ≠ "?") :
    dispatch ⟨ch, some "Y13", arg, sup⟩ chans =
      .ok (chans, configEncoderCmd ⟨ch, some "Y13", arg, sup⟩) := by
  rw [dispatch_named ch "Y13" arg sup chans 'Y' ['1', '3'] h rfl]
  rw [if_neg (by decide), if_neg (by decide), if_pos rfl]

/-- C10 witness: the out-of-range channel string 999, write form. -/
theorem y13_pure_reply_frame_witness :
    dispatch ⟨"999", some "Y13", some "6", false⟩ initChannels =
      .ok (initChannels, configEncoderCmd ⟨"999", some "Y13", some "6", false⟩) :=
  y13_pure_reply_frame "999" (some "6") false initChannels (by decide)
